import Mathlib

set_option maxHeartbeats 1000000

namespace Spark

/-! Shallow embedding of the content-fetch caching and fallback layer of the
Spark repository: `MemoryCache` (src/unnamed/part_005), the error taxonomy,
`withErrorBoundary` and `retryWithBackoff` (src/src/lib/strapi-adapter.ts),
and the `ContentManager` (src/unnamed/part_006).  Timestamps and durations are
modelled as `Int` (JS millisecond clock values); the JS `Map` is modelled as an
association list kept in insertion order, which is exactly the iteration order
JS `Map` guarantees. -/

/-- Entry stored by `MemoryCache` (interface `CacheEntry<T>` in
src/unnamed/part_005): the cached `data`, the insertion `timestamp`, and the
per-entry `ttl` in milliseconds. -/
structure CacheEntry (α : Type) where
  data : α
  timestamp : Int
  ttl : Int
  deriving Repr, DecidableEq

/-- Lookup in a JS `Map` modelled as an association list in insertion order
(`Map.get`). -/
def mapGet {β : Type} : List (String × β) → String → Option β
  | [], _ => none
  | p :: t, k => if p.1 = k then some p.2 else mapGet t k

/-- Key-membership test for the association-list map (`Map.has`). -/
def containsKey {β : Type} : List (String × β) → String → Bool
  | [], _ => false
  | p :: t, k => p.1 = k || containsKey t k

/-- JS `Map.set`: replace the entry in place when the key is present (keeping
its position in insertion order), otherwise append at the end. -/
def mapSet {β : Type} : List (String × β) → String → β → List (String × β)
  | [], k, v => [(k, v)]
  | p :: t, k, v => if p.1 = k then (k, v) :: t else p :: mapSet t k v

/-- JS `Map.delete`: remove the entry for the key. -/
def mapDelete {β : Type} (m : List (String × β)) (k : String) : List (String × β) :=
  m.filter (fun p => decide (p.1 ≠ k))

/-- State of a `MemoryCache` instance (class `MemoryCache` in
src/unnamed/part_005): the entry map together with the construction-time
`maxSize` and `defaultTTL`. -/
structure MemoryCache (α : Type) where
  cache : List (String × CacheEntry α)
  maxSize : Nat
  defaultTTL : Int
  deriving Repr, DecidableEq

/-- JS `ttl || this.defaultTTL` used by `MemoryCache.set`: a missing ttl, and
also the falsy value `0`, fall back to the cache default. -/
def ttlOrDefault (ttl : Option Int) (dflt : Int) : Int :=
  match ttl with
  | some t => if t = 0 then dflt else t
  | none => dflt

/-- `MemoryCache.set` from src/unnamed/part_005.  `enableCache` is the runtime
flag `config.features.enableCache`, re-read on every call: when false the
method is a no-op.  When the map has reached `maxSize` the first key in
insertion order is evicted — but only when that key is truthy, mirroring the
`if (oldestKey)` guard (the empty string is falsy in JS).  Then the entry is
written with the current time and `ttl || defaultTTL`. -/
def MemoryCache.set {α : Type} (c : MemoryCache α) (enableCache : Bool) (key : String)
    (data : α) (now : Int) (ttl : Option Int) : MemoryCache α :=
  if !enableCache then c
  else
    let c1 :=
      if c.cache.length ≥ c.maxSize then
        match c.cache.head? with
        | some (oldestKey, _) =>
          if oldestKey = "" then c
          else { c with cache := mapDelete c.cache oldestKey }
        | none => c
      else c
    { c1 with cache := mapSet c1.cache key ⟨data, now, ttlOrDefault ttl c.defaultTTL⟩ }

/-- Which control path a `MemoryCache.get` call took; this is instrumentation
over the source: `bypass` is the cache-disabled early return, `hit` the
valid-entry return (the only path that does not invoke the fetcher),
`fetchedStored` the successful fetch that stores, `staleFallback` the
fetcher-failed-but-stale-entry-exists return, and `errorPropagated` the
fetcher-failed-no-entry rethrow. -/
inductive GetBranch where
  | bypass
  | hit
  | fetchedStored
  | staleFallback
  | errorPropagated
  deriving Repr, DecidableEq

/-- Whether the branch taken by `get` invoked the fetcher: every path except a
cache hit does. -/
def GetBranch.invokesFetcher : GetBranch → Bool
  | .hit => false
  | _ => true

/-- Result of a `MemoryCache.get` call: the returned or thrown value, the
cache state afterwards, and the branch taken. -/
structure GetResult (α ε : Type) where
  result : Except ε α
  state : MemoryCache α
  branch : GetBranch
  deriving Repr

/-- `MemoryCache.get` from src/unnamed/part_005.  The fetcher is modelled by
the outcome of its (at most one) invocation.  With caching disabled the
fetcher result is returned directly and nothing is stored.  Otherwise a
present entry with `now - timestamp < ttl` (strict) is returned without
invoking the fetcher; else the fetcher runs and on success the result is
stored via `set`; on failure a present (stale) entry is returned, and with no
entry the error propagates. -/
def MemoryCache.get {α ε : Type} (c : MemoryCache α) (enableCache : Bool) (key : String)
    (fetcher : Except ε α) (now : Int) (ttl : Option Int) : GetResult α ε :=
  if !enableCache then ⟨fetcher, c, .bypass⟩
  else
    match mapGet c.cache key with
    | some cached =>
      if now - cached.timestamp < cached.ttl then ⟨.ok cached.data, c, .hit⟩
      else
        match fetcher with
        | .ok d => ⟨.ok d, c.set true key d now ttl, .fetchedStored⟩
        | .error _ => ⟨.ok cached.data, c, .staleFallback⟩
    | none =>
      match fetcher with
      | .ok d => ⟨.ok d, c.set true key d now ttl, .fetchedStored⟩
      | .error e => ⟨.error e, c, .errorPropagated⟩

/-- `MemoryCache.delete` from src/unnamed/part_005: removes the entry and
reports whether it existed. -/
def MemoryCache.delete {α : Type} (c : MemoryCache α) (key : String) :
    MemoryCache α × Bool :=
  ({ c with cache := mapDelete c.cache key }, containsKey c.cache key)

/-- `MemoryCache.clear` from src/unnamed/part_005: removes all entries. -/
def MemoryCache.clear {α : Type} (c : MemoryCache α) : MemoryCache α :=
  { c with cache := [] }

/-- `MemoryCache.cleanup` from src/unnamed/part_005: removes every entry whose
age `now - timestamp` has reached its ttl and returns the count removed. -/
def MemoryCache.cleanup {α : Type} (c : MemoryCache α) (now : Int) :
    MemoryCache α × Nat :=
  ({ c with cache := c.cache.filter (fun p => decide (now - p.2.timestamp < p.2.ttl)) },
    (c.cache.filter (fun p => decide (now - p.2.timestamp ≥ p.2.ttl))).length)

/-- One cache operation, for stating properties over arbitrary call
sequences. -/
inductive CacheOp (α ε : Type) where
  | get (key : String) (fetcher : Except ε α) (now : Int) (ttl : Option Int)
  | set (key : String) (data : α) (now : Int) (ttl : Option Int)
  | del (key : String)
  | clear
  | cleanup (now : Int)

/-- Apply one operation to the cache state (results other than the state are
discarded). -/
def applyOp {α ε : Type} (enable : Bool) (c : MemoryCache α) : CacheOp α ε → MemoryCache α
  | .get key fetcher now ttl => (c.get enable key fetcher now ttl).state
  | .set key data now ttl => c.set enable key data now ttl
  | .del key => (c.delete key).1
  | .clear => c.clear
  | .cleanup now => (c.cleanup now).1

/-- Run a sequence of cache operations from a starting state. -/
def runOps {α ε : Type} (enable : Bool) (c : MemoryCache α) :
    List (CacheOp α ε) → MemoryCache α
  | [] => c
  | op :: ops => runOps enable (applyOp enable c op) ops

/-- Validity predicate of the spec: an entry for `key` exists and
`now - insertedAt < ttl` holds strictly. -/
def hasValidEntry {α : Type} (c : MemoryCache α) (key : String) (now : Int) : Prop :=
  ∃ ent, mapGet c.cache key = some ent ∧ now - ent.timestamp < ent.ttl

/-- Class `APIError` from src/src/lib/strapi-adapter.ts.  Only the `status`
field participates in control flow (`message`, `endpoint` and `originalError`
are log payload only and are omitted). -/
structure APIError where
  status : Int
  deriving Repr, DecidableEq

/-- Getter `APIError.isRetryable`: status at least 500, or exactly 429. -/
def APIError.isRetryable (e : APIError) : Bool :=
  decide (e.status ≥ 500) || decide (e.status = 429)

/-- Getter `APIError.isClientError`: 400 ≤ status < 500. -/
def APIError.isClientError (e : APIError) : Bool :=
  decide (e.status ≥ 400) && decide (e.status < 500)

/-- A thrown JS error as the adapter code discriminates it: either an
`APIError` (the only class tested with `instanceof` in `retryWithBackoff` and
`withErrorBoundary`) or any other error (network errors, plain `Error`,
`ContentNotFoundError`, ...). -/
inductive JSError where
  | api : APIError → JSError
  | other : JSError
  deriving Repr, DecidableEq

/-- The test `error instanceof APIError && error.isClientError` used by
`retryWithBackoff` to skip further retries. -/
def JSError.isClientAPIError : JSError → Bool
  | .api e => e.isClientError
  | .other => false

/-- The test `error instanceof APIError && error.status === 401` used by
`withErrorBoundary` to choose the log level. -/
def JSError.isAuthError : JSError → Bool
  | .api e => decide (e.status = 401)
  | .other => false

/-- Log level the error boundary uses for a caught error. -/
inductive LogLevel where
  | warn
  | error
  deriving Repr, DecidableEq

/-- `withErrorBoundary` from src/src/lib/strapi-adapter.ts.  The operation is
modelled by the outcome of its single invocation; the returned pair is the
resolved value together with the log level of the caught error (`none` when
the operation succeeded and nothing is logged).  A 401 `APIError` is logged at
`warn` level, every other error at `error` level; in both cases the fallback
is returned and nothing is rethrown. -/
def withErrorBoundary {α : Type} (fn : Except JSError α) (fallback : α) :
    α × Option LogLevel :=
  match fn with
  | .ok v => (v, none)
  | .error e =>
    if e.isAuthError then (fallback, some .warn) else (fallback, some .error)

/-- Result of a `retryWithBackoff` call: the resolved or thrown outcome, how
many times `fn` was invoked, and the list of backoff delays awaited between
attempts, in order. -/
structure RetryResult (α : Type) where
  result : Except JSError α
  calls : Nat
  delays : List Int
  deriving Repr

/-- Loop body of `retryWithBackoff` (the `for` loop over
`attempt = 0 .. maxRetries` in src/src/lib/strapi-adapter.ts), recursing on
the number of attempts remaining after the current one.  `fn i` is the outcome
of the `i`-th invocation of `fn`.  On failure the loop rethrows immediately
for a client-error `APIError`, rethrows when this was the final attempt, and
otherwise sleeps `baseDelay * 2 ^ attempt` and retries.  (On the final attempt
the client-error check and the final-attempt check both rethrow the same
error, so they are merged.) -/
def retryGo {α : Type} (fn : Nat → Except JSError α) (baseDelay : Int) (attempt : Nat) :
    Nat → RetryResult α
  | 0 => ⟨fn attempt, attempt + 1, []⟩
  | remaining + 1 =>
    match fn attempt with
    | .ok v => ⟨.ok v, attempt + 1, []⟩
    | .error e =>
      if e.isClientAPIError then ⟨.error e, attempt + 1, []⟩
      else
        let r := retryGo fn baseDelay (attempt + 1) remaining
        ⟨r.result, r.calls, baseDelay * 2 ^ attempt :: r.delays⟩

/-- `retryWithBackoff` from src/src/lib/strapi-adapter.ts: run the attempt
loop starting at attempt 0 with `maxRetries` further attempts allowed. -/
def retryWithBackoff {α : Type} (fn : Nat → Except JSError α) (maxRetries : Nat)
    (baseDelay : Int) : RetryResult α :=
  retryGo fn baseDelay 0 maxRetries

/-- Fields of a post that the `ContentManager` derived read operations
inspect (`post.data` of `PostEntry` from src/types/post): `tags` is optional
because the code guards it with `post.data.tags && ...`. -/
structure PostData where
  title : String
  tags : Option (List String)
  category : String
  deriving Repr, DecidableEq

/-- A post entry as consumed by `ContentManager` (type `PostEntry`; only the
fields the embedded operations read are modelled — `body` is optional because
the code reads `post.body?`). -/
structure PostEntry where
  slug : String
  body : Option String
  data : PostData
  deriving Repr, DecidableEq

/-- The filter predicate of `ContentManager.getPostsByTag`:
`post.data.tags && post.data.tags.includes(tag)` (an absent tags field is
falsy, so the post is excluded). -/
def postHasTag (post : PostEntry) (tag : String) : Bool :=
  match post.data.tags with
  | some ts => ts.contains tag
  | none => false

/-- Filtering step of `ContentManager.getPostsByTag` over the fetched
collection. -/
def filterByTag (allPosts : List PostEntry) (tag : String) : List PostEntry :=
  allPosts.filter (fun post => postHasTag post tag)

/-- Filtering step of `ContentManager.getPostsByCategory`
(`post.data.category === category`). -/
def filterByCategory (allPosts : List PostEntry) (category : String) : List PostEntry :=
  allPosts.filter (fun post => decide (post.data.category = category))

/-- Claim-side predicate: the post's tags are present and include `tag`. -/
def specTagsInclude (post : PostEntry) (tag : String) : Prop :=
  ∃ ts, post.data.tags = some ts ∧ tag ∈ ts

/-- JS `String.prototype.includes`: substring containment, modelled as infix
of the character lists. -/
def jsIncludes (s sub : String) : Bool :=
  decide (sub.data <:+: s.data)

/-- The filter predicate of `ContentManager.searchPosts` applied to one post:
`title.includes(searchTerm) || content.includes(searchTerm) ||
tags.includes(searchTerm)`, where `title` is the lowercased title, `content`
is `post.body?.toLowerCase() || ''` and `tags` is
`post.data.tags?.join(' ').toLowerCase() || ''` (an absent body or tag list
contributes the empty string). -/
def postMatchesSearch (post : PostEntry) (searchTerm : String) : Bool :=
  let title := post.data.title.toLower
  let content := match post.body with
    | some b => b.toLower
    | none => ""
  let tags := match post.data.tags with
    | some ts => (String.intercalate " " ts).toLower
    | none => ""
  jsIncludes title searchTerm || jsIncludes content searchTerm ||
    jsIncludes tags searchTerm

/-- Filtering step of `ContentManager.searchPosts` over the fetched
collection: the query is lowercased once (`const searchTerm =
query.toLowerCase()`) and each post is matched against it. -/
def searchPostsFilter (allPosts : List PostEntry) (query : String) : List PostEntry :=
  allPosts.filter (fun post => postMatchesSearch post query.toLower)

/-- Claim-side predicate: the lowercased query occurs as a substring of the
post's lowercased title, of its lowercased body, or of its lowercased
space-joined tag list (an absent body or tag list searches the empty
string). -/
def specSearchMatches (post : PostEntry) (query : String) : Prop :=
  query.toLower.data <:+: post.data.title.toLower.data
  ∨ query.toLower.data <:+: (match post.body with
      | some b => b.toLower
      | none => "").data
  ∨ query.toLower.data <:+: (match post.data.tags with
      | some ts => (String.intercalate " " ts).toLower
      | none => "").data

/-- Return shape of `ContentManager.getPaginatedPosts`. -/
structure PaginatedPosts where
  posts : List PostEntry
  total : Nat
  totalPages : Nat
  currentPage : Nat
  deriving Repr, DecidableEq

/-- Slicing step of `ContentManager.getPaginatedPosts` over the fetched
collection: `Math.ceil(total / pageSize)` pages, and the slice
`allPosts.slice(startIndex, startIndex + pageSize)` with
`startIndex = (page - 1) * pageSize`. -/
def paginatePosts (allPosts : List PostEntry) (page pageSize : Nat) : PaginatedPosts :=
  let total := allPosts.length
  let totalPages := (total + pageSize - 1) / pageSize
  let startIndex := (page - 1) * pageSize
  { posts := (allPosts.drop startIndex).take pageSize
    total := total
    totalPages := totalPages
    currentPage := page }

/-- The `options` record of `ContentManager` (src/unnamed/part_006), after the
constructor has filled the defaults. -/
structure ContentManagerOptions where
  useCache : Bool
  cacheTTL : Int
  enableFallback : Bool
  deriving Repr, DecidableEq

/-- A `ContentManager` instance: the two feature flags read from config at
construction time and the resolved options. -/
structure ContentManager where
  useStrapi : Bool
  useHybridMode : Bool
  options : ContentManagerOptions
  deriving Repr, DecidableEq

/-- Insertion of one query parameter into a key-sorted parameter list, used to
model `Object.keys(params).sort()` in `generateCacheKey`. -/
def insertParamSorted (p : String × String) :
    List (String × String) → List (String × String)
  | [] => [p]
  | q :: qs =>
    if compare p.1 q.1 = Ordering.lt then p :: q :: qs else q :: insertParamSorted p qs

/-- Sort a parameter list by key, as `Object.keys(params).sort()` does. -/
def sortParams (l : List (String × String)) : List (String × String) :=
  l.foldr insertParamSorted []

/-- JS `String(bool)` as used when interpolating a boolean parameter value. -/
def boolStr (b : Bool) : String :=
  if b then "true" else "false"

/-- `generateCacheKey` from src/unnamed/part_005: the sorted `key=value` pairs
joined with `&`, appended to the prefix after a colon; just the prefix when
there are no parameters. -/
def generateCacheKey (pfx : String) (params : List (String × String)) : String :=
  let sortedParams :=
    String.intercalate "&" ((sortParams params).map (fun p => p.1 ++ "=" ++ p.2))
  if sortedParams = "" then pfx else pfx ++ ":" ++ sortedParams

/-- Cache key built by `ContentManager.getSortedPosts`. -/
def sortedPostsCacheKey (cm : ContentManager) : String :=
  generateCacheKey "sorted-posts"
    [("useStrapi", boolStr cm.useStrapi), ("useHybridMode", boolStr cm.useHybridMode)]

/-- Cache key built by `ContentManager.getPostBySlug`. -/
def postBySlugCacheKey (cm : ContentManager) (slug : String) : String :=
  generateCacheKey "post-by-slug" [("slug", slug), ("useStrapi", boolStr cm.useStrapi)]

/-- `ContentManager.fetchStrapiPosts`: the upstream call
(`strapiUtils.getSortedPosts`, modelled by the outcome `upstream` of its
invocation) wrapped in `withErrorBoundary` with fallback
`this.options.enableFallback ? [] : []` (both arms are the empty list in the
source).  Returns the resolved post list and the log level of a caught
error. -/
def fetchStrapiPosts (cm : ContentManager) (upstream : Except JSError (List PostEntry)) :
    List PostEntry × Option LogLevel :=
  withErrorBoundary upstream (if cm.options.enableFallback then [] else [])

/-- `ContentManager.fetchStrapiPostBySlug`: the upstream single-post call
wrapped in `withErrorBoundary` with fallback `undefined`. -/
def fetchStrapiPostBySlug (_cm : ContentManager)
    (upstream : Except JSError (Option PostEntry)) :
    Option PostEntry × Option LogLevel :=
  withErrorBoundary upstream none

/-- Extract the value of an infallible computation (the thunk the
`ContentManager` hands to the cache contains its own error boundary, so its
error type is empty). -/
def exceptEmptyValue {β : Type} : Except Empty β → β
  | .ok v => v
  | .error e => nomatch e

/-- `ContentManager.getSortedPosts` combined with
`getStrapiPostsWithFallback` (src/unnamed/part_006): without `useCache` the
fetch runs directly (marked `bypass`); otherwise the cache is consulted with
the error-bounded thunk, the default-instance runtime flag `enableCache`, the
key `sortedPostsCacheKey` and ttl `options.cacheTTL`.  Returns the post list,
the cache state afterwards, and the branch the cache took. -/
def cmGetSortedPosts (cm : ContentManager) (enableCache : Bool)
    (upstream : Except JSError (List PostEntry)) (c : MemoryCache (List PostEntry))
    (now : Int) : List PostEntry × MemoryCache (List PostEntry) × GetBranch :=
  if !cm.options.useCache then ((fetchStrapiPosts cm upstream).1, c, .bypass)
  else
    let r := c.get (ε := Empty) enableCache (sortedPostsCacheKey cm)
      (Except.ok (fetchStrapiPosts cm upstream).1) now (some cm.options.cacheTTL)
    (exceptEmptyValue r.result, r.state, r.branch)

/-- `ContentManager.getPostBySlug` combined with
`getStrapiPostBySlugWithFallback`: the single-post analogue of
`cmGetSortedPosts`. -/
def cmGetPostBySlug (cm : ContentManager) (enableCache : Bool) (slug : String)
    (upstream : Except JSError (Option PostEntry)) (c : MemoryCache (Option PostEntry))
    (now : Int) : Option PostEntry × MemoryCache (Option PostEntry) × GetBranch :=
  if !cm.options.useCache then ((fetchStrapiPostBySlug cm upstream).1, c, .bypass)
  else
    let r := c.get (ε := Empty) enableCache (postBySlugCacheKey cm slug)
      (Except.ok (fetchStrapiPostBySlug cm upstream).1) now (some cm.options.cacheTTL)
    (exceptEmptyValue r.result, r.state, r.branch)

/-- `ContentManager.getPostsByTag`: fetch the full collection through
`getSortedPosts`, then filter in memory. -/
def cmGetPostsByTag (cm : ContentManager) (enableCache : Bool)
    (upstream : Except JSError (List PostEntry)) (c : MemoryCache (List PostEntry))
    (now : Int) (tag : String) :
    List PostEntry × MemoryCache (List PostEntry) × GetBranch :=
  let r := cmGetSortedPosts cm enableCache upstream c now
  (filterByTag r.1 tag, r.2.1, r.2.2)

/-- `ContentManager.getPostsByCategory`: fetch the full collection through
`getSortedPosts`, then filter in memory. -/
def cmGetPostsByCategory (cm : ContentManager) (enableCache : Bool)
    (upstream : Except JSError (List PostEntry)) (c : MemoryCache (List PostEntry))
    (now : Int) (category : String) :
    List PostEntry × MemoryCache (List PostEntry) × GetBranch :=
  let r := cmGetSortedPosts cm enableCache upstream c now
  (filterByCategory r.1 category, r.2.1, r.2.2)

/-- `ContentManager.searchPosts`: fetch the full collection through
`getSortedPosts`, then filter in memory against the lowercased query. -/
def cmSearchPosts (cm : ContentManager) (enableCache : Bool)
    (upstream : Except JSError (List PostEntry)) (c : MemoryCache (List PostEntry))
    (now : Int) (query : String) :
    List PostEntry × MemoryCache (List PostEntry) × GetBranch :=
  let r := cmGetSortedPosts cm enableCache upstream c now
  (searchPostsFilter r.1 query, r.2.1, r.2.2)

/-- `ContentManager.getPaginatedPosts`: fetch the full collection through
`getSortedPosts`, then slice in memory. -/
def cmGetPaginatedPosts (cm : ContentManager) (enableCache : Bool)
    (upstream : Except JSError (List PostEntry)) (c : MemoryCache (List PostEntry))
    (now : Int) (page pageSize : Nat) :
    PaginatedPosts × MemoryCache (List PostEntry) × GetBranch :=
  let r := cmGetSortedPosts cm enableCache upstream c now
  (paginatePosts r.1 page pageSize, r.2.1, r.2.2)

/-- Well-formedness of a cache state under which the size bound is
maintainable: every stored key is nonempty (so the JS truthiness guard on the
evicted key never misfires), the size is within `maxSize`, and `maxSize` is
positive. -/
def CacheWF {α : Type} (c : MemoryCache α) : Prop :=
  (∀ p ∈ c.cache, p.1 ≠ "") ∧ c.cache.length ≤ c.maxSize ∧ 1 ≤ c.maxSize

/-- Keys touched by an operation are nonempty (so the truthiness-guard corner
of eviction is avoided). -/
def CacheOp.keyNonempty {α ε : Type} : CacheOp α ε → Prop
  | .get key _ _ _ => key ≠ ""
  | .set key _ _ _ => key ≠ ""
  | .del _ => True
  | .clear => True
  | .cleanup _ => True

/-- Concrete post used by witnesses: tagged `lean`. -/
def demoPostA : PostEntry :=
  ⟨"a", none, ⟨"Alpha", some ["lean", "cache"], "tech"⟩⟩

/-- Concrete post used by witnesses: untagged, different category. -/
def demoPostB : PostEntry :=
  ⟨"b", some "body", ⟨"Beta", some ["web"], "life"⟩⟩

/-- Concrete `ContentManager` used by witnesses: caching on, ttl 1000 ms. -/
def cmDemo : ContentManager :=
  ⟨true, false, ⟨true, 1000, true⟩⟩

/-! Basic lemmas about the association-list model of the JS `Map`. -/

theorem mapGet_mapSet_self {β : Type} (m : List (String × β)) (k : String) (v : β) :
    mapGet (mapSet m k v) k = some v := by
  induction m with
  | nil => simp [mapSet, mapGet]
  | cons p t ih =>
    by_cases h : p.1 = k
    · simp [mapSet, h, mapGet]
    · simp [mapSet, h, mapGet, ih]

theorem length_mapSet {β : Type} (m : List (String × β)) (k : String) (v : β) :
    (mapSet m k v).length =
      if containsKey m k then m.length else m.length + 1 := by
  induction m with
  | nil => simp [mapSet, containsKey]
  | cons p t ih =>
    by_cases h : p.1 = k
    · simp [mapSet, containsKey, h]
    · have hc : containsKey (p :: t) k = containsKey t k := by
        simp [containsKey, h]
      rw [hc]
      simp only [mapSet, if_neg h, List.length_cons, ih]
      by_cases hck : containsKey t k <;> simp [hck]

theorem length_mapSet_le {β : Type} (m : List (String × β)) (k : String) (v : β) :
    (mapSet m k v).length ≤ m.length + 1 := by
  rw [length_mapSet]
  split <;> omega

theorem mem_mapSet {β : Type} (m : List (String × β)) (k : String) (v : β) (q : String × β)
    (h : q ∈ mapSet m k v) : q ∈ m ∨ q = (k, v) := by
  induction m with
  | nil =>
    simp [mapSet] at h
    right; exact h
  | cons p t ih =>
    by_cases hp : p.1 = k
    · simp only [mapSet, if_pos hp, List.mem_cons] at h
      rcases h with h | h
      · right; exact h
      · left; exact List.mem_cons_of_mem _ h
    · simp only [mapSet, if_neg hp, List.mem_cons] at h
      rcases h with h | h
      · left; exact h ▸ List.mem_cons_self _ _
      · rcases ih h with h' | h'
        · left; exact List.mem_cons_of_mem _ h'
        · right; exact h'

theorem mapDelete_eq_self {β : Type} (m : List (String × β)) (k : String)
    (h : ∀ p ∈ m, p.1 ≠ k) : mapDelete m k = m :=
  List.filter_eq_self.mpr (fun p hp => by simpa using h p hp)

theorem length_mapDelete_le {β : Type} (m : List (String × β)) (k : String) :
    (mapDelete m k).length ≤ m.length :=
  List.length_filter_le _ _

theorem mem_mapDelete {β : Type} (m : List (String × β)) (k : String) (q : String × β)
    (h : q ∈ mapDelete m k) : q ∈ m :=
  List.mem_of_mem_filter h

theorem length_mapDelete_lt {β : Type} (m : List (String × β)) (k : String)
    (h : containsKey m k = true) : (mapDelete m k).length < m.length := by
  induction m with
  | nil => simp [containsKey] at h
  | cons p t ih =>
    by_cases hp : p.1 = k
    · have h1 : mapDelete (p :: t) k = mapDelete t k := by
        simp [mapDelete, List.filter_cons, hp]
      rw [h1]
      have h2 := length_mapDelete_le t k
      simp only [List.length_cons]
      omega
    · have h1 : mapDelete (p :: t) k = p :: mapDelete t k := by
        simp [mapDelete, List.filter_cons, hp]
      have ht : containsKey t k = true := by
        simp [containsKey, hp] at h
        exact h
      have h2 := ih ht
      rw [h1]
      simp only [List.length_cons]
      omega

theorem containsKey_of_mem {β : Type} {m : List (String × β)} {k : String} {v : β}
    (h : (k, v) ∈ m) : containsKey m k = true := by
  induction m with
  | nil => simp at h
  | cons p t ih =>
    rcases List.mem_cons.mp h with h | h
    · simp [containsKey, ← h]
    · simp [containsKey, ih h]

theorem mem_of_headEq {β : Type} {l : List β} {x : β} (h : l.head? = some x) : x ∈ l := by
  cases l with
  | nil => simp at h
  | cons a t =>
    simp at h
    simp [h]

theorem set_wf {α : Type} (c : MemoryCache α) (enable : Bool) (key : String) (data : α)
    (now : Int) (ttl : Option Int) (hkey : key ≠ "") (hwf : CacheWF c) :
    CacheWF (c.set enable key data now ttl) := by
  obtain ⟨hkeys, hsize, hmax⟩ := hwf
  cases enable with
  | false => exact ⟨hkeys, hsize, hmax⟩
  | true =>
    simp only [MemoryCache.set, Bool.not_true, Bool.false_eq_true, if_false]
    by_cases hfull : c.cache.length ≥ c.maxSize
    · match hhead : c.cache.head? with
      | none =>
        rw [List.head?_eq_none_iff] at hhead
        rw [hhead] at hfull
        simp at hfull
        omega
      | some (ok, oe) =>
        have hmem : (ok, oe) ∈ c.cache := mem_of_headEq hhead
        have hok : ok ≠ "" := hkeys _ hmem
        have hcontains : containsKey c.cache ok = true := containsKey_of_mem hmem
        simp only [if_pos hfull, hhead, if_neg hok]
        refine ⟨?_, ?_, hmax⟩
        · intro p hp
          rcases mem_mapSet _ _ _ _ hp with h | h
          · exact hkeys _ (mem_mapDelete _ _ _ h)
          · rw [h]; exact hkey
        · show (mapSet (mapDelete c.cache ok) key
            ⟨data, now, ttlOrDefault ttl c.defaultTTL⟩).length ≤ c.maxSize
          have h1 : (mapDelete c.cache ok).length < c.cache.length :=
            length_mapDelete_lt _ _ hcontains
          have h2 := length_mapSet_le (mapDelete c.cache ok) key
            (⟨data, now, ttlOrDefault ttl c.defaultTTL⟩ : CacheEntry α)
          omega
    · simp only [if_neg hfull]
      refine ⟨?_, ?_, hmax⟩
      · intro p hp
        rcases mem_mapSet _ _ _ _ hp with h | h
        · exact hkeys _ h
        · rw [h]; exact hkey
      · show (mapSet c.cache key
          ⟨data, now, ttlOrDefault ttl c.defaultTTL⟩).length ≤ c.maxSize
        have h2 := length_mapSet_le c.cache key
          (⟨data, now, ttlOrDefault ttl c.defaultTTL⟩ : CacheEntry α)
        omega

theorem get_state_cases {α ε : Type} (c : MemoryCache α) (enable : Bool) (key : String)
    (fetcher : Except ε α) (now : Int) (ttl : Option Int) :
    (c.get enable key fetcher now ttl).state = c ∨
      ∃ d, (c.get enable key fetcher now ttl).state = c.set true key d now ttl := by
  unfold MemoryCache.get
  cases enable with
  | false => simp
  | true =>
    simp only [Bool.not_true, Bool.false_eq_true, if_false]
    cases hm : mapGet c.cache key with
    | some cached =>
      by_cases hf : now - cached.timestamp < cached.ttl
      · simp [hf]
      · cases fetcher with
        | ok d => right; exact ⟨d, by simp [hf]⟩
        | error e => simp [hf]
    | none =>
      cases fetcher with
      | ok d => right; exact ⟨d, by simp⟩
      | error e => simp

theorem get_wf {α ε : Type} (c : MemoryCache α) (enable : Bool) (key : String)
    (fetcher : Except ε α) (now : Int) (ttl : Option Int) (hkey : key ≠ "")
    (hwf : CacheWF c) : CacheWF (c.get enable key fetcher now ttl).state := by
  rcases get_state_cases c enable key fetcher now ttl with h | ⟨d, h⟩
  · rw [h]; exact hwf
  · rw [h]; exact set_wf c true key d now ttl hkey hwf

theorem applyOp_wf {α ε : Type} (enable : Bool) (c : MemoryCache α) (op : CacheOp α ε)
    (hop : op.keyNonempty) (hwf : CacheWF c) : CacheWF (applyOp enable c op) := by
  obtain ⟨hkeys, hsize, hmax⟩ := hwf
  cases op with
  | get key fetcher now ttl => exact get_wf c enable key fetcher now ttl hop ⟨hkeys, hsize, hmax⟩
  | set key data now ttl => exact set_wf c enable key data now ttl hop ⟨hkeys, hsize, hmax⟩
  | del key =>
    refine ⟨fun p hp => hkeys _ (mem_mapDelete _ _ _ hp), ?_, hmax⟩
    show (mapDelete c.cache key).length ≤ c.maxSize
    have := length_mapDelete_le c.cache key
    omega
  | clear =>
    refine ⟨?_, ?_, hmax⟩
    · intro p hp
      simp [applyOp, MemoryCache.clear] at hp
    · show ([] : List (String × CacheEntry α)).length ≤ c.maxSize
      simp
  | cleanup now =>
    refine ⟨fun p hp => hkeys _ (List.mem_of_mem_filter hp), ?_, hmax⟩
    show (c.cache.filter (fun p => decide (now - p.2.timestamp < p.2.ttl))).length ≤ c.maxSize
    have := List.length_filter_le (fun p => decide (now - p.2.timestamp < p.2.ttl)) c.cache
    omega

theorem set_maxSize {α : Type} (c : MemoryCache α) (enable : Bool) (key : String)
    (data : α) (now : Int) (ttl : Option Int) :
    (c.set enable key data now ttl).maxSize = c.maxSize := by
  unfold MemoryCache.set
  split
  · rfl
  · dsimp only
    split
    · split
      · split <;> rfl
      · rfl
    · rfl

theorem set_defaultTTL {α : Type} (c : MemoryCache α) (enable : Bool) (key : String)
    (data : α) (now : Int) (ttl : Option Int) :
    (c.set enable key data now ttl).defaultTTL = c.defaultTTL := by
  unfold MemoryCache.set
  split
  · rfl
  · dsimp only
    split
    · split
      · split <;> rfl
      · rfl
    · rfl

theorem applyOp_maxSize {α ε : Type} (enable : Bool) (c : MemoryCache α) (op : CacheOp α ε) :
    (applyOp enable c op).maxSize = c.maxSize := by
  cases op with
  | get key fetcher now ttl =>
    rcases get_state_cases c enable key fetcher now ttl with h | ⟨d, h⟩
    · simp [applyOp, h]
    · simp [applyOp, h, set_maxSize]
  | set key data now ttl => exact set_maxSize c enable key data now ttl
  | del key => rfl
  | clear => rfl
  | cleanup now => rfl

theorem runOps_wf {α ε : Type} (enable : Bool) (ops : List (CacheOp α ε)) :
    ∀ c : MemoryCache α, (∀ op ∈ ops, op.keyNonempty) → CacheWF c →
      CacheWF (runOps enable c ops) := by
  induction ops with
  | nil => intro c _ hwf; exact hwf
  | cons op ops ih =>
    intro c hops hwf
    exact ih _ (fun o ho => hops o (List.mem_cons_of_mem _ ho))
      (applyOp_wf enable c op (hops op (List.mem_cons_self _ _)) hwf)

theorem runOps_maxSize {α ε : Type} (enable : Bool) (ops : List (CacheOp α ε)) :
    ∀ c : MemoryCache α, (runOps enable c ops).maxSize = c.maxSize := by
  induction ops with
  | nil => intro c; rfl
  | cons op ops ih =>
    intro c
    rw [runOps, ih, applyOp_maxSize]

/-! Evaluation lemmas: the four enabled-cache control paths of
`MemoryCache.get`, and the entry observed after a `set`. -/

theorem get_eq_hit {α ε : Type} {c : MemoryCache α} {key : String} {fetcher : Except ε α}
    {now : Int} {ttl : Option Int} {cached : CacheEntry α}
    (hm : mapGet c.cache key = some cached) (hf : now - cached.timestamp < cached.ttl) :
    c.get true key fetcher now ttl = ⟨Except.ok cached.data, c, .hit⟩ := by
  unfold MemoryCache.get
  simp [hm, hf]

theorem get_eq_fetched {α ε : Type} {c : MemoryCache α} {key : String} {d : α}
    {now : Int} {ttl : Option Int}
    (hnv : ∀ cached, mapGet c.cache key = some cached →
      ¬ now - cached.timestamp < cached.ttl) :
    c.get true key (Except.ok d : Except ε α) now ttl =
      ⟨Except.ok d, c.set true key d now ttl, .fetchedStored⟩ := by
  unfold MemoryCache.get
  cases hm : mapGet c.cache key with
  | some cached => simp [hm, hnv cached hm]
  | none => simp [hm]

theorem get_eq_stale {α ε : Type} {c : MemoryCache α} {key : String} {now : Int}
    {ttl : Option Int} {cached : CacheEntry α} {e : ε}
    (hm : mapGet c.cache key = some cached)
    (hf : ¬ now - cached.timestamp < cached.ttl) :
    c.get true key (Except.error e : Except ε α) now ttl =
      ⟨Except.ok cached.data, c, .staleFallback⟩ := by
  unfold MemoryCache.get
  simp [hm, hf]

theorem get_eq_propagate {α ε : Type} {c : MemoryCache α} {key : String} {now : Int}
    {ttl : Option Int} {e : ε} (hm : mapGet c.cache key = none) :
    c.get true key (Except.error e : Except ε α) now ttl =
      ⟨Except.error e, c, .errorPropagated⟩ := by
  unfold MemoryCache.get
  simp [hm]

theorem mapGet_set_self {α : Type} (c : MemoryCache α) (key : String) (d : α)
    (now : Int) (ttl : Option Int) :
    mapGet (c.set true key d now ttl).cache key =
      some ⟨d, now, ttlOrDefault ttl c.defaultTTL⟩ := by
  unfold MemoryCache.set
  exact mapGet_mapSet_self _ _ _

/-- Claim C1: with caching enabled, `get` returns the stored entry's data
without invoking the fetcher exactly when an entry for the key exists and
`now - insertedAt < ttl` holds strictly; on a present entry whose ttl has
elapsed a subsequent `get` invokes the fetcher again and, on success, stores
the new result under the key (stamped with the current time and the requested
ttl). -/
theorem memoryCache_get_ttl_validity {α ε : Type} (c : MemoryCache α) (key : String)
    (fetcher : Except ε α) (now : Int) (ttl : Option Int) (ent : CacheEntry α) (d : α) :
    ((c.get true key fetcher now ttl).branch.invokesFetcher = false ↔
      hasValidEntry c key now)
    ∧ (mapGet c.cache key = some ent → now - ent.timestamp < ent.ttl →
        (c.get true key fetcher now ttl).result = Except.ok ent.data
        ∧ (c.get true key fetcher now ttl).state = c)
    ∧ (mapGet c.cache key = some ent → ¬ now - ent.timestamp < ent.ttl →
        (c.get true key fetcher now ttl).branch.invokesFetcher = true
        ∧ (fetcher = Except.ok d →
            (c.get true key fetcher now ttl).result = Except.ok d
            ∧ mapGet (c.get true key fetcher now ttl).state.cache key =
                some ⟨d, now, ttlOrDefault ttl c.defaultTTL⟩)) := by
  refine ⟨?_, ?_, ?_⟩
  · cases hm : mapGet c.cache key with
    | none =>
      have hnv : ¬ hasValidEntry c key now := by
        rintro ⟨x, hx, _⟩
        rw [hm] at hx
        cases hx
      cases fetcher with
      | ok dd =>
        rw [get_eq_fetched (fun x hx => by rw [hm] at hx; cases hx)]
        simpa [GetBranch.invokesFetcher] using hnv
      | error e =>
        rw [get_eq_propagate hm]
        simpa [GetBranch.invokesFetcher] using hnv
    | some cached =>
      by_cases hf : now - cached.timestamp < cached.ttl
      · rw [get_eq_hit hm hf]
        simpa [GetBranch.invokesFetcher] using ⟨cached, hm, hf⟩
      · have hnv : ¬ hasValidEntry c key now := by
          rintro ⟨x, hx, hfr⟩
          rw [hm] at hx
          cases hx
          exact hf hfr
        have hnv' : ∀ x, mapGet c.cache key = some x → ¬ now - x.timestamp < x.ttl := by
          intro x hx
          rw [hm] at hx
          cases hx
          exact hf
        cases fetcher with
        | ok dd =>
          rw [get_eq_fetched hnv']
          simpa [GetBranch.invokesFetcher] using hnv
        | error e =>
          rw [get_eq_stale hm hf]
          simpa [GetBranch.invokesFetcher] using hnv
  · intro hm hf
    rw [get_eq_hit hm hf]
    exact ⟨rfl, rfl⟩
  · intro hm hf
    have hnv' : ∀ x, mapGet c.cache key = some x → ¬ now - x.timestamp < x.ttl := by
      intro x hx
      rw [hm] at hx
      cases hx
      exact hf
    constructor
    · cases fetcher with
      | ok dd => rw [get_eq_fetched hnv']; rfl
      | error e => rw [get_eq_stale hm hf]; rfl
    · intro hfd
      subst hfd
      rw [get_eq_fetched hnv']
      exact ⟨rfl, mapGet_set_self c key d now ttl⟩

/-- Witness for C1 at a concrete input: a cache holding a fresh entry for
`"k"` returns the stored data and is left unchanged. -/
theorem memoryCache_get_ttl_validity_witness :
    (MemoryCache.get (α := Nat) (ε := Unit) ⟨[("k", ⟨7, 0, 10⟩)], 10, 1000⟩ true "k"
        (Except.ok 42) 5 none).result = Except.ok 7
    ∧ (MemoryCache.get (α := Nat) (ε := Unit) ⟨[("k", ⟨7, 0, 10⟩)], 10, 1000⟩ true "k"
        (Except.ok 42) 5 none).state = ⟨[("k", ⟨7, 0, 10⟩)], 10, 1000⟩ :=
  (memoryCache_get_ttl_validity ⟨[("k", ⟨7, 0, 10⟩)], 10, 1000⟩ "k" (Except.ok 42) 5 none
      ⟨7, 0, 10⟩ 42).2.1 (by decide) (by decide)

/-- Claim C2: with caching enabled and a fetcher that throws, `get` returns
the previously-stored (possibly expired) entry's data whenever any prior
entry exists for the key, propagates the error exactly when no prior entry
exists, and in neither case stores a new value. -/
theorem memoryCache_get_stale_fallback {α ε : Type} (c : MemoryCache α) (key : String)
    (err : ε) (now : Int) (ttl : Option Int) (ent : CacheEntry α) :
    (mapGet c.cache key = some ent →
      (c.get true key (Except.error err) now ttl).result = Except.ok ent.data
      ∧ (c.get true key (Except.error err) now ttl).state = c)
    ∧ (mapGet c.cache key = none →
      (c.get true key (Except.error err) now ttl).result = Except.error err
      ∧ (c.get true key (Except.error err) now ttl).state = c) := by
  constructor
  · intro hm
    by_cases hf : now - ent.timestamp < ent.ttl
    · rw [get_eq_hit hm hf]
      exact ⟨rfl, rfl⟩
    · rw [get_eq_stale hm hf]
      exact ⟨rfl, rfl⟩
  · intro hm
    rw [get_eq_propagate hm]
    exact ⟨rfl, rfl⟩

/-- Witness for C2 at a concrete input: an expired entry for `"k"` is served
stale when the fetcher fails, and the cache is unchanged. -/
theorem memoryCache_get_stale_fallback_witness :
    (MemoryCache.get (α := Nat) (ε := String) ⟨[("k", ⟨7, 0, 10⟩)], 10, 1000⟩ true "k"
        (Except.error "boom") 50 none).result = Except.ok 7
    ∧ (MemoryCache.get (α := Nat) (ε := String) ⟨[("k", ⟨7, 0, 10⟩)], 10, 1000⟩ true "k"
        (Except.error "boom") 50 none).state = ⟨[("k", ⟨7, 0, 10⟩)], 10, 1000⟩ :=
  (memoryCache_get_stale_fallback ⟨[("k", ⟨7, 0, 10⟩)], 10, 1000⟩ "k" "boom" 50 none
      ⟨7, 0, 10⟩).1 (by decide)

/-! Evaluation lemmas for the two enabled-cache paths of `MemoryCache.set`. -/

theorem set_eq_full {α : Type} {c : MemoryCache α} {key : String} {d : α} {now : Int}
    {ttl : Option Int} {ok : String} {oe : CacheEntry α}
    (hfull : c.cache.length ≥ c.maxSize) (hhead : c.cache.head? = some (ok, oe))
    (hok : ok ≠ "") :
    (c.set true key d now ttl).cache =
      mapSet (mapDelete c.cache ok) key ⟨d, now, ttlOrDefault ttl c.defaultTTL⟩ := by
  unfold MemoryCache.set
  simp [hfull, hhead, hok]

theorem set_eq_room {α : Type} {c : MemoryCache α} {key : String} {d : α} {now : Int}
    {ttl : Option Int} (hroom : ¬ c.cache.length ≥ c.maxSize) :
    (c.set true key d now ttl).cache =
      mapSet c.cache key ⟨d, now, ttlOrDefault ttl c.defaultTTL⟩ := by
  unfold MemoryCache.set
  simp [hroom]

/-- Counterexample to claim C3 as stated.  First conjunct pair: on a full
cache `{a, b}` with `maxSize = 2`, `set` on the already-present key `"b"`
evicts the other entry `"a"` (the code evicts whenever `size >= maxSize`,
without checking whether the key is new).  Second conjunct: with an
empty-string key as the oldest entry the JS truthiness guard `if (oldestKey)`
skips eviction, so the size grows to 2 past `maxSize = 1`.  Third conjunct:
with `maxSize = 0` an insert into the empty cache reaches size 1 past
`maxSize`. -/
theorem memoryCache_set_eviction_counterexample :
    (mapGet (MemoryCache.set (α := Nat) ⟨[("a", ⟨1, 0, 100⟩), ("b", ⟨2, 0, 100⟩)], 2, 1000⟩
        true "b" 9 50 none).cache "a" = none
      ∧ mapGet ((⟨[("a", ⟨1, 0, 100⟩), ("b", ⟨2, 0, 100⟩)], 2, 1000⟩ :
          MemoryCache Nat)).cache "a" = some ⟨1, 0, 100⟩)
    ∧ (MemoryCache.set (α := Nat) ⟨[("", ⟨1, 0, 100⟩)], 1, 1000⟩
        true "x" 7 5 none).cache.length = 2
    ∧ (MemoryCache.set (α := Nat) ⟨[], 0, 1000⟩ true "a" 3 0 none).cache.length = 1 := by
  decide

/-- Claim C3 (amended): provided every key is nonempty and `maxSize ≥ 1`, the
cache size never exceeds `maxSize` after any sequence of operations; when
`set` is called on a cache at size == maxSize the single oldest-inserted
entry is evicted regardless of whether the key is already present, and the
entry for the key is then written into the remainder; only when the key is
already present and the cache is strictly below `maxSize` is the entry
replaced in place with no eviction. -/
theorem memoryCache_set_eviction_amended {α ε : Type} (c : MemoryCache α) (key : String)
    (d : α) (now : Int) (ttl : Option Int) (ops : List (CacheOp α ε))
    (hwf : CacheWF c) (hops : ∀ op ∈ ops, op.keyNonempty) :
    (runOps true c ops).cache.length ≤ c.maxSize
    ∧ (∀ ok oe rest, c.cache = (ok, oe) :: rest → c.cache.length = c.maxSize →
        (∀ p ∈ rest, p.1 ≠ ok) →
        (c.set true key d now ttl).cache =
          mapSet rest key ⟨d, now, ttlOrDefault ttl c.defaultTTL⟩)
    ∧ (containsKey c.cache key = true → c.cache.length < c.maxSize →
        (c.set true key d now ttl).cache =
          mapSet c.cache key ⟨d, now, ttlOrDefault ttl c.defaultTTL⟩
        ∧ (c.set true key d now ttl).cache.length = c.cache.length) := by
  refine ⟨?_, ?_, ?_⟩
  · have h := runOps_wf true ops c hops hwf
    have hms := runOps_maxSize (α := α) (ε := ε) true ops c
    have := h.2.1
    omega
  · intro ok oe rest hc hlen hrest
    have hmem : (ok, oe) ∈ c.cache := by
      rw [hc]
      exact List.mem_cons_self _ _
    have hok : ok ≠ "" := hwf.1 _ hmem
    have hfull : c.cache.length ≥ c.maxSize := by omega
    have hhead : c.cache.head? = some (ok, oe) := by rw [hc]; rfl
    rw [set_eq_full hfull hhead hok, hc]
    have hdel : mapDelete ((ok, oe) :: rest) ok = rest := by
      have h1 : mapDelete ((ok, oe) :: rest) ok = mapDelete rest ok := by
        simp [mapDelete, List.filter_cons]
      rw [h1, mapDelete_eq_self rest ok hrest]
    rw [hdel]
  · intro hck hroom
    have hroom' : ¬ c.cache.length ≥ c.maxSize := by omega
    refine ⟨set_eq_room hroom', ?_⟩
    rw [set_eq_room hroom', length_mapSet, if_pos hck]

/-- Witness for the amended C3 at a concrete input: no sequence of operations
grows the two-entry cache past `maxSize = 2`, and a `set` of the fresh key
`"c"` on the full cache evicts the oldest entry `"a"` and appends `"c"` to
the remainder. -/
theorem memoryCache_set_eviction_amended_witness :
    (runOps (α := Nat) (ε := Unit) true ⟨[("a", ⟨1, 0, 100⟩), ("b", ⟨2, 0, 100⟩)], 2, 1000⟩
        []).cache.length ≤ 2
    ∧ (MemoryCache.set (α := Nat) ⟨[("a", ⟨1, 0, 100⟩), ("b", ⟨2, 0, 100⟩)], 2, 1000⟩
        true "c" 9 50 none).cache = mapSet [("b", ⟨2, 0, 100⟩)] "c" ⟨9, 50, 1000⟩ := by
  have h := memoryCache_set_eviction_amended (α := Nat) (ε := Unit)
    ⟨[("a", ⟨1, 0, 100⟩), ("b", ⟨2, 0, 100⟩)], 2, 1000⟩ "c" 9 50 none []
    (by unfold CacheWF; exact ⟨by decide, by decide, by decide⟩) (by simp)
  exact ⟨h.1, h.2.1 "a" ⟨1, 0, 100⟩ [("b", ⟨2, 0, 100⟩)] rfl rfl (by decide)⟩

theorem runOps_disabled_empty {α ε : Type} (ops : List (CacheOp α ε)) :
    ∀ c : MemoryCache α, c.cache = [] → (runOps false c ops).cache = [] := by
  induction ops with
  | nil => intro c h; exact h
  | cons op ops ih =>
    intro c h
    apply ih
    cases op with
    | get key fetcher now ttl => simpa [applyOp, MemoryCache.get] using h
    | set key data now ttl => simpa [applyOp, MemoryCache.set] using h
    | del key => simp [applyOp, MemoryCache.delete, mapDelete, h]
    | clear => simp [applyOp, MemoryCache.clear]
    | cleanup now => simp [applyOp, MemoryCache.cleanup, h]

/-- Claim C8: with caching globally disabled (a runtime flag consulted on
every call), `get` invokes the fetcher on every call, returns its outcome,
and stores nothing; `set` is a no-op; and starting from an empty entry map
the map remains empty after any sequence of operations. -/
theorem memoryCache_disabled_bypass {α ε : Type} (c : MemoryCache α)
    (key : String) (fetcher : Except ε α) (d : α) (now : Int) (ttl : Option Int)
    (ops : List (CacheOp α ε)) (hempty : c.cache = []) :
    ((c.get false key fetcher now ttl).result = fetcher
      ∧ (c.get false key fetcher now ttl).branch.invokesFetcher = true
      ∧ (c.get false key fetcher now ttl).state = c)
    ∧ c.set false key d now ttl = c
    ∧ (runOps false c ops).cache = [] := by
  exact ⟨⟨rfl, rfl, rfl⟩, rfl, runOps_disabled_empty ops c hempty⟩

/-- Witness for C8 at a concrete input: a disabled-cache `get` resolves to
the fetcher's value, and a disabled-cache set-then-get sequence leaves the
map empty. -/
theorem memoryCache_disabled_bypass_witness :
    (MemoryCache.get (α := Nat) (ε := Unit) ⟨[], 3, 1000⟩ false "a"
        (Except.ok 5) 0 none).result = Except.ok 5
    ∧ (runOps (α := Nat) (ε := Unit) false ⟨[], 3, 1000⟩
        [CacheOp.set "a" 5 0 none, CacheOp.get "b" (Except.ok 6) 1 none]).cache = [] := by
  have h := memoryCache_disabled_bypass (α := Nat) (ε := Unit) ⟨[], 3, 1000⟩ "a"
    (Except.ok 5) 5 0 none [CacheOp.set "a" 5 0 none, CacheOp.get "b" (Except.ok 6) 1 none] rfl
  exact ⟨h.1.1, h.2.2⟩

/-! Lemmas about the retry loop. -/

theorem retryGo_allFail {α : Type} (fn : Nat → Except JSError α) (b : Int)
    (h : ∀ i, ∃ e, fn i = Except.error e ∧ e.isClientAPIError = false) :
    ∀ remaining attempt, retryGo fn b attempt remaining =
      ⟨fn (attempt + remaining), attempt + remaining + 1,
        (List.range remaining).map (fun i => b * 2 ^ (attempt + i))⟩ := by
  intro remaining
  induction remaining with
  | zero =>
    intro attempt
    simp [retryGo]
  | succ n ih =>
    intro attempt
    obtain ⟨e, he, hce⟩ := h attempt
    have hr := ih (attempt + 1)
    have harg : attempt + 1 + n = attempt + (n + 1) := by omega
    have hfun : (fun i => b * 2 ^ (attempt + 1 + i)) =
        ((fun i => b * 2 ^ (attempt + i)) ∘ Nat.succ) := by
      funext i
      show b * 2 ^ (attempt + 1 + i) = b * 2 ^ (attempt + (i + 1))
      have hia : attempt + 1 + i = attempt + (i + 1) := by omega
      rw [hia]
    have hstep : retryGo fn b attempt (n + 1) =
        ⟨(retryGo fn b (attempt + 1) n).result, (retryGo fn b (attempt + 1) n).calls,
          b * 2 ^ attempt :: (retryGo fn b (attempt + 1) n).delays⟩ := by
      conv_lhs => rw [retryGo]
      rw [he]
      simp [hce]
    rw [hstep, hr]
    dsimp only
    rw [harg, List.range_succ_eq_map, List.map_cons, List.map_map, hfun]
    simp

/-- Claim C4: for an operation that always fails with a retryable error (a
network-style error with no status, or a 5xx upstream error),
`retryWithBackoff` invokes it exactly `maxRetries + 1` times, waits
`baseDelay * 2 ^ attemptIndex` before each re-attempt (attempt index starting
at 0), and finally rethrows the last error to the caller. -/
theorem retryWithBackoff_retryable_schedule {α : Type} (fn : Nat → Except JSError α)
    (maxRetries : Nat) (baseDelay : Int)
    (h : ∀ i, (∃ s, fn i = Except.error (JSError.api ⟨s⟩) ∧ 500 ≤ s) ∨
      fn i = Except.error JSError.other) :
    (retryWithBackoff fn maxRetries baseDelay).calls = maxRetries + 1
    ∧ (retryWithBackoff fn maxRetries baseDelay).delays =
        (List.range maxRetries).map (fun i => baseDelay * 2 ^ i)
    ∧ (retryWithBackoff fn maxRetries baseDelay).result = fn maxRetries := by
  have h' : ∀ i, ∃ e, fn i = Except.error e ∧ e.isClientAPIError = false := by
    intro i
    rcases h i with ⟨s, hs, hge⟩ | ho
    · refine ⟨JSError.api ⟨s⟩, hs, ?_⟩
      have h5 : (decide (s < 500)) = false := by
        simpa using (by omega : ¬ s < 500)
      simp [JSError.isClientAPIError, APIError.isClientError, h5]
    · exact ⟨JSError.other, ho, rfl⟩
  have hg := retryGo_allFail fn baseDelay h' maxRetries 0
  unfold retryWithBackoff
  rw [hg]
  refine ⟨by simp, by simp, by simp⟩

/-- Witness for C4 at a concrete input: a fetch that always fails with a 500
is called 4 times under `maxRetries = 3, baseDelay = 100`, the delays are
100, 200, 400 ms, and the final 500 error is rethrown. -/
theorem retryWithBackoff_retryable_schedule_witness :
    ((retryWithBackoff (α := Nat) (fun _ => Except.error (JSError.api ⟨500⟩)) 3 100).calls = 4
    ∧ (retryWithBackoff (α := Nat) (fun _ => Except.error (JSError.api ⟨500⟩)) 3 100).delays =
        (List.range 3).map (fun i => 100 * 2 ^ i)
    ∧ (retryWithBackoff (α := Nat) (fun _ => Except.error (JSError.api ⟨500⟩)) 3 100).result
        = Except.error (JSError.api ⟨500⟩))
    ∧ (List.range 3).map (fun i => (100 : Int) * 2 ^ i) = [100, 200, 400] :=
  ⟨retryWithBackoff_retryable_schedule (fun _ => Except.error (JSError.api ⟨500⟩)) 3 100
      (fun _ => Or.inl ⟨500, rfl, by decide⟩),
    by decide⟩

/-- Claim C5 (code bug): the code's own taxonomy marks status 429 as
retryable (`APIError.isRetryable`), yet the retry loop tests
`isClientError`, which includes 429; so an operation that fails once with a
429 and would succeed on the second call is invoked exactly once, with no
backoff, and the 429 error is rethrown instead of the call resolving to the
successful value. -/
theorem retryWithBackoff_429_not_retried :
    APIError.isRetryable ⟨429⟩ = true
    ∧ APIError.isClientError ⟨429⟩ = true
    ∧ (retryWithBackoff (fun i => if i = 0 then Except.error (JSError.api ⟨429⟩)
        else Except.ok (42 : Nat)) 3 100).calls = 1
    ∧ (retryWithBackoff (fun i => if i = 0 then Except.error (JSError.api ⟨429⟩)
        else Except.ok (42 : Nat)) 3 100).result = Except.error (JSError.api ⟨429⟩)
    ∧ (retryWithBackoff (fun i => if i = 0 then Except.error (JSError.api ⟨429⟩)
        else Except.ok (42 : Nat)) 3 100).delays = [] :=
  ⟨by decide, by decide, by decide, rfl, by decide⟩

/-- Claim C6: an operation that fails with a non-retryable client error (4xx
other than 429) is invoked exactly once and the error is rethrown
immediately, with no backoff delay and no further attempts. -/
theorem retryWithBackoff_client_error_short_circuit {α : Type}
    (fn : Nat → Except JSError α) (maxRetries : Nat) (baseDelay : Int) (s : Int)
    (h4 : 400 ≤ s) (h5 : s < 500) (_h429 : s ≠ 429)
    (h0 : fn 0 = Except.error (JSError.api ⟨s⟩)) :
    (retryWithBackoff fn maxRetries baseDelay).calls = 1
    ∧ (retryWithBackoff fn maxRetries baseDelay).result = Except.error (JSError.api ⟨s⟩)
    ∧ (retryWithBackoff fn maxRetries baseDelay).delays = [] := by
  have hce : (JSError.api ⟨s⟩).isClientAPIError = true := by
    simp only [JSError.isClientAPIError, APIError.isClientError, Bool.and_eq_true,
      decide_eq_true_eq]
    exact ⟨h4, h5⟩
  unfold retryWithBackoff
  cases maxRetries with
  | zero => simp [retryGo, h0]
  | succ n => simp [retryGo, h0, hce]

/-- Witness for C6 at a concrete input: a 404 `APIError` short-circuits the
retry loop after a single call. -/
theorem retryWithBackoff_client_error_short_circuit_witness :
    (retryWithBackoff (α := Nat) (fun _ => Except.error (JSError.api ⟨404⟩)) 3 100).calls = 1
    ∧ (retryWithBackoff (α := Nat) (fun _ => Except.error (JSError.api ⟨404⟩)) 3 100).result
        = Except.error (JSError.api ⟨404⟩)
    ∧ (retryWithBackoff (α := Nat) (fun _ => Except.error (JSError.api ⟨404⟩)) 3 100).delays
        = [] :=
  retryWithBackoff_client_error_short_circuit (fun _ => Except.error (JSError.api ⟨404⟩))
    3 100 404 (by decide) (by decide) (by decide) rfl

/-- Claim C7: `withErrorBoundary` resolves to the operation's result when the
operation succeeds and to the fallback for any thrown error, never
rethrowing; the error is logged at warn level exactly for an authentication
failure (an `APIError` with status 401) and at error level otherwise. -/
theorem withErrorBoundary_fallback {α : Type} (fn : Except JSError α) (fallback : α)
    (v : α) (e : JSError) :
    (fn = Except.ok v → withErrorBoundary fn fallback = (v, none))
    ∧ (fn = Except.error e →
        (withErrorBoundary fn fallback).1 = fallback
        ∧ (withErrorBoundary fn fallback).2 =
            some (if e.isAuthError then LogLevel.warn else LogLevel.error)) := by
  constructor
  · intro h
    subst h
    rfl
  · intro h
    subst h
    cases he : e.isAuthError
    · simp [withErrorBoundary, he]
    · simp [withErrorBoundary, he]

/-- Witness for C7 at a concrete input: a thrown 401 `APIError` resolves to
the fallback and is logged at warn level. -/
theorem withErrorBoundary_fallback_witness :
    (withErrorBoundary (Except.error (JSError.api ⟨401⟩)) (5 : Nat)).1 = 5
    ∧ (withErrorBoundary (Except.error (JSError.api ⟨401⟩)) (5 : Nat)).2 =
        some (if (JSError.api ⟨401⟩).isAuthError then LogLevel.warn else LogLevel.error) :=
  (withErrorBoundary_fallback (Except.error (JSError.api ⟨401⟩)) 5 0
      (JSError.api ⟨401⟩)).2 rfl

/-! Lemmas for the derived `ContentManager` reads. -/

theorem postHasTag_iff (p : PostEntry) (tag : String) :
    postHasTag p tag = true ↔ specTagsInclude p tag := by
  unfold postHasTag specTagsInclude
  cases ht : p.data.tags with
  | none => simp
  | some ts => simp [List.elem_iff]

theorem postMatchesSearch_iff (p : PostEntry) (query : String) :
    postMatchesSearch p query.toLower = true ↔ specSearchMatches p query := by
  unfold postMatchesSearch specSearchMatches jsIncludes
  simp only [Bool.or_eq_true, decide_eq_true_eq]
  rw [or_assoc]

theorem totalPages_ceil (total pageSize : Nat) (hp : 0 < pageSize) :
    (total + pageSize - 1) / pageSize = total ⌈/⌉ pageSize
    ∧ total ≤ pageSize * ((total + pageSize - 1) / pageSize)
    ∧ ((total + pageSize - 1) / pageSize) * pageSize < total + pageSize := by
  have h1 : (total + pageSize - 1) / pageSize = total ⌈/⌉ pageSize := rfl
  refine ⟨h1, ?_, ?_⟩
  · have h2 := le_smul_ceilDiv (b := total) hp
    rw [smul_eq_mul] at h2
    rw [h1]
    exact h2
  · calc ((total + pageSize - 1) / pageSize) * pageSize
        ≤ total + pageSize - 1 := Nat.div_mul_le_self _ _
      _ < total + pageSize := by omega

/-- Claim C9: every derived read of `ContentManager` is a pure in-memory
function of the single `getSortedPosts` collection: by-tag returns exactly
the posts whose tags include the tag, by-category exactly those whose
category equals the category, search exactly the posts whose lowercased
title, body or space-joined tags contain the lowercased query, and
pagination returns the slice starting at index `(page - 1) * pageSize` of
length at most `pageSize`, with `total` the collection length and
`totalPages` its ceiling division by `pageSize`; each derived view reuses
the result, cache state and branch of the single `getSortedPosts` call and
performs no fetch or caching of its own. -/
theorem contentManager_derived_views (cm : ContentManager) (enableCache : Bool)
    (upstream : Except JSError (List PostEntry)) (c : MemoryCache (List PostEntry))
    (now : Int) (tag category query : String) (p : PostEntry) (page pageSize : Nat)
    (_hpage : 1 ≤ page) (hsize : 1 ≤ pageSize) :
    (cmGetPostsByTag cm enableCache upstream c now tag =
      (filterByTag (cmGetSortedPosts cm enableCache upstream c now).1 tag,
        (cmGetSortedPosts cm enableCache upstream c now).2.1,
        (cmGetSortedPosts cm enableCache upstream c now).2.2))
    ∧ (p ∈ (cmGetPostsByTag cm enableCache upstream c now tag).1 ↔
        p ∈ (cmGetSortedPosts cm enableCache upstream c now).1 ∧ specTagsInclude p tag)
    ∧ (cmGetPostsByCategory cm enableCache upstream c now category =
      (filterByCategory (cmGetSortedPosts cm enableCache upstream c now).1 category,
        (cmGetSortedPosts cm enableCache upstream c now).2.1,
        (cmGetSortedPosts cm enableCache upstream c now).2.2))
    ∧ (p ∈ (cmGetPostsByCategory cm enableCache upstream c now category).1 ↔
        p ∈ (cmGetSortedPosts cm enableCache upstream c now).1 ∧
          p.data.category = category)
    ∧ (cmGetPaginatedPosts cm enableCache upstream c now page pageSize =
      (paginatePosts (cmGetSortedPosts cm enableCache upstream c now).1 page pageSize,
        (cmGetSortedPosts cm enableCache upstream c now).2.1,
        (cmGetSortedPosts cm enableCache upstream c now).2.2))
    ∧ ((cmGetPaginatedPosts cm enableCache upstream c now page pageSize).1.posts =
        ((cmGetSortedPosts cm enableCache upstream c now).1.drop
          ((page - 1) * pageSize)).take pageSize)
    ∧ ((cmGetPaginatedPosts cm enableCache upstream c now page pageSize).1.posts.length ≤
        pageSize)
    ∧ ((cmGetPaginatedPosts cm enableCache upstream c now page pageSize).1.total =
        (cmGetSortedPosts cm enableCache upstream c now).1.length)
    ∧ ((cmGetPaginatedPosts cm enableCache upstream c now page pageSize).1.totalPages =
        (cmGetSortedPosts cm enableCache upstream c now).1.length ⌈/⌉ pageSize)
    ∧ ((cmGetPaginatedPosts cm enableCache upstream c now page pageSize).1.total ≤
        pageSize *
          (cmGetPaginatedPosts cm enableCache upstream c now page pageSize).1.totalPages)
    ∧ ((cmGetPaginatedPosts cm enableCache upstream c now page pageSize).1.totalPages *
          pageSize <
        (cmGetPaginatedPosts cm enableCache upstream c now page pageSize).1.total +
          pageSize)
    ∧ (cmSearchPosts cm enableCache upstream c now query =
      (searchPostsFilter (cmGetSortedPosts cm enableCache upstream c now).1 query,
        (cmGetSortedPosts cm enableCache upstream c now).2.1,
        (cmGetSortedPosts cm enableCache upstream c now).2.2))
    ∧ (p ∈ (cmSearchPosts cm enableCache upstream c now query).1 ↔
        p ∈ (cmGetSortedPosts cm enableCache upstream c now).1 ∧
          specSearchMatches p query) := by
  have hceil := totalPages_ceil (cmGetSortedPosts cm enableCache upstream c now).1.length
    pageSize hsize
  refine ⟨rfl, ?_, rfl, ?_, rfl, rfl, ?_, rfl, ?_, ?_, ?_, rfl, ?_⟩
  · show p ∈ filterByTag (cmGetSortedPosts cm enableCache upstream c now).1 tag ↔ _
    rw [filterByTag, List.mem_filter, postHasTag_iff]
  · show p ∈ filterByCategory
      (cmGetSortedPosts cm enableCache upstream c now).1 category ↔ _
    rw [filterByCategory, List.mem_filter]
    simp
  · show (((cmGetSortedPosts cm enableCache upstream c now).1.drop
      ((page - 1) * pageSize)).take pageSize).length ≤ pageSize
    exact List.length_take_le _ _
  · exact hceil.1
  · exact hceil.2.1
  · exact hceil.2.2
  · show p ∈ searchPostsFilter
      (cmGetSortedPosts cm enableCache upstream c now).1 query ↔ _
    rw [searchPostsFilter, List.mem_filter, postMatchesSearch_iff]

/-- Witness for C9 at a concrete input: the by-tag and search membership
characterisations and the pagination bookkeeping hold on a two-post
collection. -/
theorem contentManager_derived_views_witness :
    (demoPostA ∈ (cmGetPostsByTag cmDemo true (Except.ok [demoPostA, demoPostB])
        ⟨[], 10, 1000⟩ 0 "lean").1 ↔
      demoPostA ∈ (cmGetSortedPosts cmDemo true (Except.ok [demoPostA, demoPostB])
        ⟨[], 10, 1000⟩ 0).1 ∧ specTagsInclude demoPostA "lean")
    ∧ (cmGetPaginatedPosts cmDemo true (Except.ok [demoPostA, demoPostB])
        ⟨[], 10, 1000⟩ 0 1 1).1.totalPages =
      (cmGetSortedPosts cmDemo true (Except.ok [demoPostA, demoPostB])
        ⟨[], 10, 1000⟩ 0).1.length ⌈/⌉ 1
    ∧ (demoPostB ∈ (cmSearchPosts cmDemo true (Except.ok [demoPostA, demoPostB])
        ⟨[], 10, 1000⟩ 0 "BOD").1 ↔
      demoPostB ∈ (cmGetSortedPosts cmDemo true (Except.ok [demoPostA, demoPostB])
        ⟨[], 10, 1000⟩ 0).1 ∧ specSearchMatches demoPostB "BOD") := by
  have h := contentManager_derived_views cmDemo true (Except.ok [demoPostA, demoPostB])
    ⟨[], 10, 1000⟩ 0 "lean" "life" "BOD" demoPostA 1 1 (by decide) (by decide)
  have hB := contentManager_derived_views cmDemo true (Except.ok [demoPostA, demoPostB])
    ⟨[], 10, 1000⟩ 0 "lean" "life" "BOD" demoPostB 1 1 (by decide) (by decide)
  exact ⟨h.2.1, h.2.2.2.2.2.2.2.2.1, hB.2.2.2.2.2.2.2.2.2.2.2.2⟩

/-! Lemmas for the `ContentManager` fallback-caching path (claim C10). -/

theorem fetchStrapiPosts_error (cm : ContentManager) (err : JSError) :
    (fetchStrapiPosts cm (Except.error err)).1 = [] := by
  unfold fetchStrapiPosts withErrorBoundary
  cases he : err.isAuthError <;> cases hf : cm.options.enableFallback <;> simp [he, hf]

theorem fetchStrapiPostBySlug_error (cm : ContentManager) (err : JSError) :
    (fetchStrapiPostBySlug cm (Except.error err)).1 = none := by
  unfold fetchStrapiPostBySlug withErrorBoundary
  cases he : err.isAuthError <;> simp [he]

theorem cmGetSortedPosts_no_stale (cm : ContentManager)
    (up : Except JSError (List PostEntry)) (c : MemoryCache (List PostEntry)) (now : Int) :
    (cmGetSortedPosts cm true up c now).2.2 ≠ GetBranch.staleFallback := by
  unfold cmGetSortedPosts
  by_cases hu : cm.options.useCache
  · simp only [hu, Bool.not_true, Bool.false_eq_true, if_false]
    cases hm : mapGet c.cache (sortedPostsCacheKey cm) with
    | some cached =>
      by_cases hf : now - cached.timestamp < cached.ttl
      · rw [get_eq_hit hm hf]
        simp
      · rw [get_eq_fetched (fun x hx => by rw [hm] at hx; cases hx; exact hf)]
        simp
    | none =>
      rw [get_eq_fetched (fun x hx => by rw [hm] at hx; cases hx)]
      simp
  · simp [hu]

theorem cmGetPostBySlug_no_stale (cm : ContentManager) (slug : String)
    (up : Except JSError (Option PostEntry)) (c : MemoryCache (Option PostEntry))
    (now : Int) :
    (cmGetPostBySlug cm true slug up c now).2.2 ≠ GetBranch.staleFallback := by
  unfold cmGetPostBySlug
  by_cases hu : cm.options.useCache
  · simp only [hu, Bool.not_true, Bool.false_eq_true, if_false]
    cases hm : mapGet c.cache (postBySlugCacheKey cm slug) with
    | some cached =>
      by_cases hf : now - cached.timestamp < cached.ttl
      · rw [get_eq_hit hm hf]
        simp
      · rw [get_eq_fetched (fun x hx => by rw [hm] at hx; cases hx; exact hf)]
        simp
    | none =>
      rw [get_eq_fetched (fun x hx => by rw [hm] at hx; cases hx)]
      simp
  · simp [hu]

theorem cmGetSortedPosts_miss_stores (cm : ContentManager) (err : JSError)
    (c : MemoryCache (List PostEntry)) (now : Int)
    (huse : cm.options.useCache = true)
    (hmiss : ∀ ent, mapGet c.cache (sortedPostsCacheKey cm) = some ent →
      ¬ now - ent.timestamp < ent.ttl) :
    cmGetSortedPosts cm true (Except.error err) c now =
      ([], c.set true (sortedPostsCacheKey cm) [] now (some cm.options.cacheTTL),
        GetBranch.fetchedStored) := by
  unfold cmGetSortedPosts
  simp only [huse, Bool.not_true, Bool.false_eq_true, if_false]
  rw [fetchStrapiPosts_error]
  rw [get_eq_fetched hmiss]
  rfl

theorem cmGetSortedPosts_hit (cm : ContentManager) (up : Except JSError (List PostEntry))
    (c : MemoryCache (List PostEntry)) (now : Int) (ent : CacheEntry (List PostEntry))
    (huse : cm.options.useCache = true)
    (hent : mapGet c.cache (sortedPostsCacheKey cm) = some ent)
    (hf : now - ent.timestamp < ent.ttl) :
    cmGetSortedPosts cm true up c now = (ent.data, c, GetBranch.hit) := by
  unfold cmGetSortedPosts
  simp only [huse, Bool.not_true, Bool.false_eq_true, if_false]
  rw [get_eq_hit hent hf]
  rfl

/-- Claim C10: the `ContentManager` places the error boundary inside the
thunk it hands to the cache, so the thunk never throws; on a miss (no valid
entry) with the upstream failing, the fallback (the empty list for
`getSortedPosts`, `undefined` for `getPostBySlug`) is itself stored under the
query key with a fresh insertion time and the full requested TTL; the cache's
stale-fallback branch is unreachable through the `ContentManager` path; and a
subsequent query within the TTL returns the cached fallback without
contacting the upstream (its result and state do not depend on the second
upstream outcome). -/
theorem contentManager_fallback_caching (cm : ContentManager) (err errS : JSError)
    (c c₂ : MemoryCache (List PostEntry)) (cs : MemoryCache (Option PostEntry))
    (now now₂ now₃ : Int) (up₂ up₃ : Except JSError (List PostEntry))
    (ups : Except JSError (Option PostEntry)) (slug : String)
    (huse : cm.options.useCache = true) (httl : 0 < cm.options.cacheTTL)
    (hmiss : ∀ ent, mapGet c.cache (sortedPostsCacheKey cm) = some ent →
      ¬ now - ent.timestamp < ent.ttl)
    (hfresh : now₂ - now < cm.options.cacheTTL) :
    (fetchStrapiPosts cm (Except.error err)).1 = []
    ∧ cmGetSortedPosts cm true (Except.error err) c now =
        ([], c.set true (sortedPostsCacheKey cm) [] now (some cm.options.cacheTTL),
          GetBranch.fetchedStored)
    ∧ mapGet (cmGetSortedPosts cm true (Except.error err) c now).2.1.cache
        (sortedPostsCacheKey cm) = some ⟨[], now, cm.options.cacheTTL⟩
    ∧ cmGetSortedPosts cm true up₂
        (cmGetSortedPosts cm true (Except.error err) c now).2.1 now₂ =
      ([], (cmGetSortedPosts cm true (Except.error err) c now).2.1, GetBranch.hit)
    ∧ (cmGetSortedPosts cm true up₃ c₂ now₃).2.2 ≠ GetBranch.staleFallback
    ∧ (fetchStrapiPostBySlug cm (Except.error errS)).1 = none
    ∧ (cmGetPostBySlug cm true slug ups cs now₃).2.2 ≠ GetBranch.staleFallback := by
  have hst := cmGetSortedPosts_miss_stores cm err c now huse hmiss
  have httl' : ttlOrDefault (some cm.options.cacheTTL) c.defaultTTL =
      cm.options.cacheTTL := by
    unfold ttlOrDefault
    have hne : ¬ cm.options.cacheTTL = 0 := by omega
    simp [hne]
  have hentry : mapGet (cmGetSortedPosts cm true (Except.error err) c now).2.1.cache
      (sortedPostsCacheKey cm) = some ⟨[], now, cm.options.cacheTTL⟩ := by
    rw [hst]
    show mapGet (c.set true (sortedPostsCacheKey cm) [] now
      (some cm.options.cacheTTL)).cache (sortedPostsCacheKey cm) = _
    rw [mapGet_set_self, httl']
  refine ⟨fetchStrapiPosts_error cm err, hst, hentry, ?_,
    cmGetSortedPosts_no_stale cm up₃ c₂ now₃,
    fetchStrapiPostBySlug_error cm errS,
    cmGetPostBySlug_no_stale cm slug ups cs now₃⟩
  exact cmGetSortedPosts_hit cm up₂ _ now₂ ⟨[], now, cm.options.cacheTTL⟩ huse hentry hfresh

/-- Witness for C10 at a concrete input: with the upstream failing on an
empty cache, the empty-list fallback is cached under the sorted-posts key,
and a second query 100 ms later hits the cache regardless of the upstream. -/
theorem contentManager_fallback_caching_witness :
    cmGetSortedPosts cmDemo true (Except.error JSError.other) ⟨[], 10, 500⟩ 0 =
      ([], MemoryCache.set ⟨[], 10, 500⟩ true (sortedPostsCacheKey cmDemo) [] 0 (some 1000),
        GetBranch.fetchedStored)
    ∧ cmGetSortedPosts cmDemo true (Except.ok [demoPostA])
        (cmGetSortedPosts cmDemo true (Except.error JSError.other) ⟨[], 10, 500⟩ 0).2.1 100 =
      ([], (cmGetSortedPosts cmDemo true (Except.error JSError.other)
        ⟨[], 10, 500⟩ 0).2.1, GetBranch.hit) := by
  have h := contentManager_fallback_caching cmDemo JSError.other JSError.other
    ⟨[], 10, 500⟩ ⟨[], 10, 500⟩ ⟨[], 5, 500⟩ 0 100 7 (Except.ok [demoPostA])
    (Except.ok [demoPostA]) (Except.ok none) "s" rfl (by decide)
    (fun ent hent => by simp [mapGet] at hent) (by decide)
  exact ⟨h.2.1, h.2.2.2.1⟩

end Spark
